import Mathlib

/-!
Verification development for the pedagogical unit-validation and
knowledge-graph-construction pipeline of a language-tutoring backend
(`backend/routes/conversation.py` and `backend/routes/graph.py`).

The Python source is shallowly embedded: text is `String`/`List Char`,
Python floats are modelled as exact rationals `ℚ`, Python dicts as
association lists (insertion-ordered), and the per-turn mutable state of
the validation gate as an explicit state record threaded through a fold.
All definitions are executable and structurally recursive so concrete
runs evaluate inside the kernel.
-/

namespace Tutor

/-! ## Tokenizer / Normalizer (`_normalize_text`, `_tokenize`, `_contains_space`) -/

/-- ASCII whitespace, as recognised by Python `str.split()` / `str.strip()`
(the Unicode-only whitespace code points are out of modelling scope). -/
def isPySpace (c : Char) : Bool :=
  c = ' ' || c = '\t' || c = '\n' || c = '\r' || c = '\x0b' || c = '\x0c'

/-- Python `str.lower()`, restricted to ASCII plus the accented Latin capitals
that occur in the repository's character classes. -/
def charLower (c : Char) : Char :=
  if 'A' ≤ c ∧ c ≤ 'Z' then Char.ofNat (c.toNat + 32)
  else match c with
  | 'À' => 'à' | 'Â' => 'â' | 'Ä' => 'ä' | 'É' => 'é' | 'È' => 'è'
  | 'Ê' => 'ê' | 'Ë' => 'ë' | 'Ï' => 'ï' | 'Î' => 'î' | 'Ô' => 'ô'
  | 'Ù' => 'ù' | 'Û' => 'û' | 'Ü' => 'ü' | 'Ÿ' => 'ÿ' | 'Ç' => 'ç'
  | 'Œ' => 'œ' | 'Æ' => 'æ' | 'Á' => 'á' | 'Í' => 'í' | 'Ó' => 'ó'
  | 'Ú' => 'ú' | 'Ñ' => 'ñ' | 'Ö' => 'ö'
  | _ => c

/-- Python `"’" -> "'"` replacement (right single quote to ASCII apostrophe). -/
def fixRightQuote (c : Char) : Char :=
  if c = '’' then '\'' else c

/-- Python `str.strip()` on a character list. -/
def stripChars (cs : List Char) : List Char :=
  ((cs.dropWhile isPySpace).reverse.dropWhile isPySpace).reverse

/-- Maximal runs of characters satisfying `p`; characters failing `p` separate
runs and are dropped.  `cur` is the (reversed) run being accumulated. -/
def runsAcc (p : Char → Bool) (cur : List Char) : List Char → List (List Char)
  | [] => if cur.isEmpty then [] else [cur.reverse]
  | c :: cs =>
    if p c then runsAcc p (c :: cur) cs
    else if cur.isEmpty then runsAcc p [] cs
    else cur.reverse :: runsAcc p [] cs

/-- Python `str.split()` (no separator: split on whitespace runs, drop empties). -/
def pySplitWs (cs : List Char) : List (List Char) :=
  runsAcc (fun c => !isPySpace c) [] cs

/-- `_normalize_text` from `conversation.py` (also `_norm_text` in `graph.py`):
strip, lowercase, normalise the right single quote to an ASCII apostrophe,
collapse internal whitespace to single spaces. -/
def normalizeText (value : String) : String :=
  ⟨(List.intercalate [' '] (pySplitWs (((stripChars value.data).map charLower).map fixRightQuote)) : List Char)⟩

/-- Membership of `c` in one of the \w-relevant accented Latin letters used in
this repository (both cases). -/
def isAccentLatin (c : Char) : Bool :=
  "àâäéèêëïîôùûüÿçœæÀÂÄÉÈÊËÏÎÔÙÛÜŸÇŒÆáíóúñÁÍÓÚÑößÖ".data.contains c

/-- Python regex `\w` (Unicode word character), restricted to the scripts the
module handles: ASCII alphanumerics, underscore, accented Latin letters, CJK,
kana, Hangul, Cyrillic, Arabic, Devanagari. -/
def isWordChar (c : Char) : Bool :=
  c.isAlphanum || c = '_' || isAccentLatin c ||
  (0x4e00 ≤ c.toNat && c.toNat ≤ 0x9fff) ||
  (0x3400 ≤ c.toNat && c.toNat ≤ 0x4dbf) ||
  (0x3040 ≤ c.toNat && c.toNat ≤ 0x30ff) ||
  (0xac00 ≤ c.toNat && c.toNat ≤ 0xd7af) ||
  (0x1100 ≤ c.toNat && c.toNat ≤ 0x11ff) ||
  (0x0400 ≤ c.toNat && c.toNat ≤ 0x04ff) ||
  (0x0600 ≤ c.toNat && c.toNat ≤ 0x06ff) ||
  (0x0750 ≤ c.toNat && c.toNat ≤ 0x077f) ||
  (0x0900 ≤ c.toNat && c.toNat ≤ 0x097f)

/-- `_tokenize`: `re.findall(r"\w+", _normalize_text(value))`. -/
def tokenizeText (value : String) : List String :=
  (runsAcc isWordChar [] (normalizeText value).data).map fun cs => ⟨cs⟩

/-- `_contains_space`: `" " in _normalize_text(value)`. -/
def containsSpaceB (value : String) : Bool :=
  (normalizeText value).data.contains ' '

/-- Python substring test `needle in hay`: does `needle` occur as a contiguous
subsequence of `hay`?  `leadsWith n h` checks `n` at the front of `h`. -/
def leadsWith : List Char → List Char → Bool
  | [], _ => true
  | _ :: _, [] => false
  | a :: as, b :: bs => a = b && leadsWith as bs

/-- Substring occurrence anywhere in `hay` (Python `needle in hay`). -/
def containsSeq (needle : List Char) : List Char → Bool
  | [] => needle.isEmpty
  | c :: t => leadsWith needle (c :: t) || containsSeq needle t

/-- Python `needle in hay` on strings. -/
def strContains (hay needle : String) : Bool :=
  containsSeq needle.data hay.data

/-- Python `hay.startswith(needle)` on strings. -/
def strStartsWith (hay needle : String) : Bool :=
  leadsWith needle.data hay.data

/-- First-occurrence deduplication (Python `list(dict.fromkeys(xs))` and the
observable content of a Python `set` built by insertion). -/
def firstDedupAux (seen : List String) : List String → List String
  | [] => []
  | x :: xs => if x ∈ seen then firstDedupAux seen xs else x :: firstDedupAux (x :: seen) xs

/-- First-occurrence deduplication of a list of strings. -/
def firstDedup (l : List String) : List String := firstDedupAux [] l

/-! ## Stop words (`_STOP_WORDS` in `conversation.py`) -/

/-- The `_STOP_WORDS` set (transcribed; duplicates across language groups are
harmless since only membership is used). -/
def stopWords : List String :=
  [ -- Filler / interjections (universal)
    "euh", "um", "uh", "ah", "oh", "hm", "hmm", "ben", "bah", "hein",
    -- English (interface language)
    "i", "me", "my", "you", "your", "he", "she", "it", "we", "they",
    "the", "a", "an", "is", "am", "are", "was", "were", "be", "been",
    "do", "does", "did", "have", "has", "had", "and", "or", "but", "not",
    "yes", "no", "so", "if", "in", "on", "at", "to", "of", "for",
    -- French
    "je", "tu", "il", "elle", "on", "nous", "vous", "ils", "elles",
    "le", "la", "les", "un", "une", "des", "du", "de", "d",
    "à", "au", "aux", "en", "et", "ou", "mais", "donc", "car",
    "que", "qui", "ne", "pas", "est", "ont", "sont", "c",
    "ce", "se", "y", "l", "s", "n", "oui", "non", "très",
    "suis", "es", "sommes", "avons", "avez", "fait", "ca", "ça",
    -- Spanish
    "yo", "tú", "él", "ella", "usted", "nosotros", "ellos", "ellas",
    "el", "lo", "las", "los", "es", "son", "sí",
    "que", "de", "en", "y", "no", "por", "con", "para",
    -- German
    "ich", "du", "er", "sie", "wir", "ihr", "das", "der", "die",
    "ist", "bin", "sind", "und", "oder", "aber", "nicht", "ja", "nein",
    "ein", "eine", "den", "dem", "des",
    -- Italian
    "io", "lui", "lei", "noi", "voi", "loro",
    "è", "sono", "di", "che", "con", "per", "sì",
    -- Portuguese
    "eu", "ele", "ela", "nós", "eles", "elas",
    "é", "são", "sim", "não", "com", "para",
    -- Chinese / Japanese / Korean single-char particles
    "的", "了", "是", "在", "我", "你", "他", "她",
    "は", "が", "を", "に", "で", "の", "と",
    "은", "는", "이", "가", "을", "를"]

/-! ## Heuristic fallback vocabulary extraction (`_extract_user_vocabulary`) -/

/-- The Latin character class of the vocabulary-token regex in
`_extract_user_vocabulary` (ASCII letters plus the explicit accented list). -/
def isVocabLatin (c : Char) : Bool :=
  c.isAlpha || "àâäéèêëïîôùûüÿçœæÀÂÄÉÈÊËÏÎÔÙÛÜŸÇŒÆáíóúñÁÍÓÚÑößÖ".data.contains c

/-- Non-Latin alternatives of the vocabulary-token regex, one predicate per
alternation branch (CJK, kana, Hangul, Cyrillic, Arabic, Devanagari). -/
def vocabClasses : List (Char → Bool) :=
  [ fun c => (0x4e00 ≤ c.toNat && c.toNat ≤ 0x9fff) || (0x3400 ≤ c.toNat && c.toNat ≤ 0x4dbf)
  , fun c => (0x3040 ≤ c.toNat && c.toNat ≤ 0x309f) || (0x30a0 ≤ c.toNat && c.toNat ≤ 0x30ff)
  , fun c => (0xac00 ≤ c.toNat && c.toNat ≤ 0xd7af) || (0x1100 ≤ c.toNat && c.toNat ≤ 0x11ff)
  , fun c => (0x0400 ≤ c.toNat && c.toNat ≤ 0x04ff)
  , fun c => (0x0600 ≤ c.toNat && c.toNat ≤ 0x06ff) || (0x0750 ≤ c.toNat && c.toNat ≤ 0x077f)
  , fun c => (0x0900 ≤ c.toNat && c.toNat ≤ 0x097f) ]

/-- Which non-Latin class (if any) a character belongs to. -/
def vocabClassOf (c : Char) : Option (Char → Bool) :=
  vocabClasses.find? fun p => p c

/-- `re.findall` scanner for the vocabulary-token regex: a Latin run with an
optional `'`-continuation, or a maximal run of one non-Latin class.  `fuel`
bounds recursion (initially the input length) so the scan is structural. -/
def scanVocab : Nat → List Char → List (List Char)
  | 0, _ => []
  | _ + 1, [] => []
  | fuel + 1, c :: cs =>
    if isVocabLatin c then
      let run1 := c :: cs.takeWhile isVocabLatin
      let rest1 := cs.dropWhile isVocabLatin
      match rest1 with
      | q :: d :: ds =>
        if q = '\'' && isVocabLatin d then
          let run2 := q :: d :: ds.takeWhile isVocabLatin
          (run1 ++ run2) :: scanVocab fuel (ds.dropWhile isVocabLatin)
        else run1 :: scanVocab fuel rest1
      | _ => run1 :: scanVocab fuel rest1
    else
      match vocabClassOf c with
      | some p => (c :: cs.takeWhile p) :: scanVocab fuel (cs.dropWhile p)
      | none => scanVocab fuel cs

/-- `_extract_user_vocabulary`: tokenize the stripped text, drop stop words and
single characters, and fall back to the whole stripped text when everything
was filtered out. -/
def extractUserVocabulary (userText : String) : List String :=
  let text := (⟨stripChars userText.data⟩ : String)
  if text = "" then []
  else
    let tokens : List String := (scanVocab text.data.length text.data).map fun cs => ⟨cs⟩
    let result := tokens.filter fun token =>
      let lower : String := ⟨token.data.map charLower⟩
      ¬ (lower ∈ stopWords ∨ lower.length < 2)
    if result = [] ∧ text ≠ "" then [text] else result

/-! ## Unit kinds and canonical units -/

/-- The unit kinds of the pipeline, with precedence pattern > sentence > chunk > word. -/
inductive Kind where
  | word
  | chunk
  | sentence
  | pattern
deriving DecidableEq, Repr

/-- String form of a kind, as used in `canonical_key = f"{kind}:{text}"`. -/
def Kind.str : Kind → String
  | .word => "word"
  | .chunk => "chunk"
  | .sentence => "sentence"
  | .pattern => "pattern"

/-- Precedence rank table of `_canonicalize_candidates`. -/
def rank : Kind → Nat
  | .pattern => 4
  | .sentence => 3
  | .chunk => 2
  | .word => 1

/-- The `source` field of a unit: attested as said, or only in the corrected form. -/
inductive UnitSource where
  | asSaid
  | corrected
deriving DecidableEq, Repr

/-- A canonical unit produced by `_canonicalize_candidates`. -/
structure CanonicalItem where
  text : String
  kind : Kind
  src : UnitSource
  canonicalKey : String
deriving DecidableEq, Repr

/-! ## Regex searches of `_extract_pattern_candidates`

Each detector is `re.search` of a literal phrase with a word boundary in
front, followed by one of three tails: `\s+\w+`, `\s+.+`, or a trailing `\b`. -/

/-- After skipping leading whitespace, is the first character a word character?
(Backtracking residue of `\s+\w+`: `\s` and `\w` are disjoint.) -/
def firstNonWsIsWord : List Char → Bool
  | [] => false
  | c :: t => if isPySpace c then firstNonWsIsWord t else isWordChar c

/-- Can `.+` start after extending `\s+` over newlines?  (`.` matches anything
but `'\n'`, and `'\n'` is the only whitespace `.` rejects.) -/
def nonNlReachable : List Char → Bool
  | [] => false
  | c :: t => if c = '\n' then nonNlReachable t else true

/-- The tail following the literal in each detector regex. -/
inductive TailReq where
  | wsWord
  | wsAny
  | bound

/-- Does the rest of the input satisfy the tail requirement? -/
def tailOk : TailReq → List Char → Bool
  | .wsWord, [] => false
  | .wsWord, c :: t => isPySpace c && firstNonWsIsWord t
  | .wsAny, [] => false
  | .wsAny, c :: t => isPySpace c && nonNlReachable t
  | .bound, [] => true
  | .bound, c :: _ => !isWordChar c

/-- Consume the literal off the front of the input, if present. -/
def afterLit : List Char → List Char → Option (List Char)
  | [], rest => some rest
  | _ :: _, [] => none
  | a :: as, b :: bs => if a = b then afterLit as bs else none

/-- `re.search` of `\b<lit><tail>`: try a match at every position whose
predecessor is not a word character (`prevOk` tracks the boundary). -/
def searchPat (lit : List Char) (req : TailReq) : Bool → List Char → Bool
  | _, [] => false
  | prevOk, c :: t =>
    (prevOk &&
      (match afterLit lit (c :: t) with
       | some rest => tailOk req rest
       | none => false)) ||
    searchPat lit req (!isWordChar c) t

/-- Search a literal-with-tail detector over a whole string. -/
def searchLit (s : String) (lit : String) (req : TailReq) : Bool :=
  searchPat lit.data req true s.data

/-- `_extract_pattern_candidates`: fixed regex detectors over the corrected
text, emitting `pattern`-kind candidates. -/
def extractPatternCandidates (correctedText : String) : List CanonicalItem :=
  let c1 : List CanonicalItem :=
    if searchLit correctedText "je suis" .wsWord then
      [⟨"je suis + [noun]", .pattern, .corrected, "pattern:identity_je_suis_noun"⟩] else []
  let c2 : List CanonicalItem :=
    if searchLit correctedText "j'aime" .wsAny then
      [⟨"j'aime + [object]", .pattern, .corrected, "pattern:preference_jaime_object"⟩] else []
  let c3 : List CanonicalItem :=
    if searchLit correctedText "ça va" .bound || searchLit correctedText "ca va" .bound then
      [⟨"ça va", .pattern, .corrected, "pattern:greeting_ca_va"⟩] else []
  let c4 : List CanonicalItem :=
    if searchLit correctedText "me llamo" .wsWord then
      [⟨"me llamo + [name]", .pattern, .corrected, "pattern:identity_me_llamo"⟩] else []
  let c5 : List CanonicalItem :=
    if searchLit correctedText "me gusta" .wsAny then
      [⟨"me gusta + [object]", .pattern, .corrected, "pattern:preference_me_gusta"⟩] else []
  let c6 : List CanonicalItem :=
    if searchLit correctedText "ich bin" .wsWord then
      [⟨"ich bin + [noun/adj]", .pattern, .corrected, "pattern:identity_ich_bin"⟩] else []
  c1 ++ c2 ++ c3 ++ c4 ++ c5 ++ c6

/-! ## Unit Canonicalizer (`_canonicalize_candidates`) -/

/-- The fixed prefix table that promotes specific constructions to `pattern`
kind (iteration order matches the Python dict literal). -/
def patternMap : List (String × String × String) :=
  [ ("je suis ", "pattern:identity_je_suis_noun", "je suis + [noun]")
  , ("j'aime ", "pattern:preference_jaime_object", "j'aime + [object]")
  , ("me llamo ", "pattern:identity_me_llamo", "me llamo + [name]")
  , ("me gusta ", "pattern:preference_me_gusta", "me gusta + [object]")
  , ("ich bin ", "pattern:identity_ich_bin", "ich bin + [noun/adj]")
  , ("ich mag ", "pattern:preference_ich_mag", "ich mag + [object]") ]

/-- One iteration of the raw-candidate loop of `_canonicalize_candidates`,
taking the already-normalized candidate text.  The accumulator carries the
item list and the `seen_norm` set. -/
def canonAccum (sourceText : String) (acc : List CanonicalItem × List String)
    (text : String) : List CanonicalItem × List String :=
  if text = "" ∨ text ∈ acc.2 then acc
  else
    let seen := acc.2 ++ [text]
    let tokens := tokenizeText text
    let kind : Kind :=
      if containsSpaceB text ∧ 3 ≤ tokens.length then .sentence
      else if containsSpaceB text then .chunk
      else .word
    let canonicalKey := kind.str ++ ":" ++ text
    match patternMap.find? (fun e => strStartsWith text e.1) with
    | some e =>
      let item : CanonicalItem :=
        ⟨e.2.2, .pattern, if strContains sourceText e.2.2 then .asSaid else .corrected, e.2.1⟩
      (acc.1 ++ [item], seen)
    | none =>
      if text = "ca va" ∨ text = "ça va" then
        let item : CanonicalItem :=
          ⟨"ça va", .pattern, if strContains sourceText "ça va" then .asSaid else .corrected,
           "pattern:greeting_ca_va"⟩
        (acc.1 ++ [item], seen)
      else
        let item : CanonicalItem :=
          ⟨text, kind, if strContains sourceText text then .asSaid else .corrected, canonicalKey⟩
        (acc.1 ++ [item], seen)

/-- The individual-word fallback of `_canonicalize_candidates`: when no
sentence/chunk/pattern candidate survived, emit one `word` candidate per
non-stopword token of the corrected text. -/
def withWordFallback (correctedText : String) (items : List CanonicalItem) : List CanonicalItem :=
  let hasPhrases := items.any fun i => i.kind = .sentence || i.kind = .chunk || i.kind = .pattern
  if hasPhrases then items
  else
    (tokenizeText correctedText).foldl (fun its tok =>
      if tok ∈ stopWords ∨ tok.length ≤ 1 then its
      else
        let key := "word:" ++ tok
        if its.any fun i => i.canonicalKey = key then its
        else its ++ [⟨tok, .word, .corrected, key⟩]) items

/-- One step of the key-grouping pass: a Python dict keyed by `canonical_key`,
keeping the higher-precedence kind and updating in place. -/
def groupStep (m : List CanonicalItem) (item : CanonicalItem) : List CanonicalItem :=
  match m.find? (fun e => e.canonicalKey = item.canonicalKey) with
  | none => m ++ [item]
  | some old =>
    if rank old.kind < rank item.kind then
      m.map fun e => if e.canonicalKey = item.canonicalKey then item else e
    else m

/-- `list(grouped.values())` after grouping all items by canonical key. -/
def groupByKey (items : List CanonicalItem) : List CanonicalItem :=
  items.foldl groupStep []

/-- The candidate items of `_canonicalize_candidates` before key-grouping:
pattern candidates from the corrected text, the processed raw candidates, and
the word fallback. -/
def preGroupItems (rawUnits : List String) (correctedText sourceText : String) :
    List CanonicalItem :=
  withWordFallback correctedText
    (rawUnits.foldl (fun a r => canonAccum sourceText a (normalizeText r))
      (extractPatternCandidates correctedText, [])).1

/-- `_canonicalize_candidates`: canonicalize raw candidates with precedence
pattern > sentence > chunk > word. -/
def canonicalizeCandidates (rawUnits : List String) (correctedText sourceText : String) :
    List CanonicalItem :=
  groupByKey (preGroupItems rawUnits correctedText sourceText)

/-! ## Dynamically-typed candidates (`_normalize_text` on non-string input)

`_normalize_text` evaluates `(value or "").strip()...`: falsy values are
coerced to the empty string, while a truthy non-string raises
`AttributeError` at `.strip()`, aborting the turn. -/

/-- A Python value that may appear in a malformed candidate list. -/
inductive PyVal where
  | pstr (s : String)
  | pnone
  | pint (n : Int)
deriving DecidableEq, Repr

/-- `_normalize_text` under Python dynamic typing: `(value or "")` keeps a
truthy value and replaces a falsy one by `""`; calling `.strip()` on a
non-string then raises. -/
def normalizeTextDyn : PyVal → Except String String
  | .pstr s => .ok (normalizeText s)
  | .pnone => .ok ""
  | .pint n => if n = 0 then .ok "" else .error "AttributeError"

/-- The string a falsy non-string coerces to (for relating the dynamic run to
the all-strings run). -/
def pyValToStr : PyVal → String
  | .pstr s => s
  | .pnone => ""
  | .pint _ => ""

/-- Is the value handled without a type error by `_normalize_text`? -/
def pyValSafe : PyVal → Bool
  | .pstr _ => true
  | .pnone => true
  | .pint n => n = 0

/-- `_canonicalize_candidates` on a dynamically-typed candidate list: the
first entry whose normalization raises aborts the whole canonicalization. -/
def canonicalizeCandidatesDyn (rawUnits : List PyVal) (correctedText sourceText : String) :
    Except String (List CanonicalItem) :=
  (rawUnits.foldlM (fun a v => (normalizeTextDyn v).map (canonAccum sourceText a))
      (extractPatternCandidates correctedText, [])).map
    fun a => groupByKey (withWordFallback correctedText a.1)

/-! ## Validation Gate (`_strict_validate_units`) -/

/-- A canonical unit enriched with the gate decision. -/
structure ValidatedUnit where
  text : String
  kind : Kind
  src : UnitSource
  confidence : ℚ
  isAccepted : Bool
  rejectReason : Option String
  canonicalKey : String
  missionRelevance : ℚ
deriving DecidableEq, Repr

/-- `_mission_keywords`: tokens of the mission hint of length ≥ 4 that are not
stop words (a Python set, modelled as a first-occurrence deduped list). -/
def missionKeywords (missionHint : String) : List String :=
  firstDedup ((tokenizeText missionHint).filter fun w => 4 ≤ w.length ∧ w ∉ stopWords)

/-- The verb-stem stubs rejected as `incomplete_pattern`. -/
def incompletePatterns : List String :=
  [ "je suis", "j'aime", "j'ai envie de", "jai envie de"
  , "me llamo", "me gusta"
  , "ich bin", "ich mag"
  , "io sono", "mi piace" ]

/-- Mission relevance of a unit: token overlap with the mission keyword set,
floored at 0.7 for pattern/sentence kinds. -/
def missionRelevanceFor (mkw : List String) (tokens : List String) (kind : Kind) : ℚ :=
  let mr : ℚ :=
    if mkw ≠ [] then
      min 1 (((tokens.filter (· ∈ mkw)).length : ℚ) / max 1 (mkw.length : ℚ))
    else 0
  if kind = .pattern ∨ kind = .sentence then max mr 0.7 else mr

/-- `in_corrected` of the gate: attested in the corrected text, or a
pattern-keyed or sentence-kind unit (deemed attested). -/
def inCorrectedB (correctedText text canonicalKey : String) (kind : Kind) : Bool :=
  strContains correctedText text || strStartsWith canonicalKey "pattern:" || kind = .sentence

/-- `in_source` of the gate: attested in the raw utterance, or sentence-kind. -/
def inSourceB (sourceText text : String) (kind : Kind) : Bool :=
  strContains sourceText text || kind = .sentence

/-- The confidence computation of the gate (`conversation.py` lines 341-345):
0.9 / 0.75 / 0.55 by attestation, then floored at 0.82 for patterns and 0.85
for sentences. -/
def confFor (sourceText correctedText text canonicalKey : String) (kind : Kind) : ℚ :=
  let ic := inCorrectedB correctedText text canonicalKey kind
  let isc := inSourceB sourceText text kind
  let base : ℚ := if isc && ic then 0.9 else if isc || ic then 0.75 else 0.55
  let withPat : ℚ := if kind = .pattern then max base 0.82 else base
  if kind = .sentence then max withPat 0.85 else withPat

/-- The state threaded through the gate's per-unit loop. -/
structure GateSt where
  accepted : List ValidatedUnit
  rejected : List ValidatedUnit
  selTokenSets : List (List String)
  selPatternTokenSets : List (List String)
deriving Repr

/-- One iteration of the gate loop of `_strict_validate_units`: the ordered
rejection rules, confidence and mission-relevance computation, coverage
checks against previously accepted units, and acceptance. -/
def gateStep (sourceText correctedText : String) (hasCorrection : Bool)
    (mkw : List String) (st : GateSt) (item : CanonicalItem) : GateSt :=
  if (item.kind ≠ .pattern ∧ item.kind ≠ .sentence) ∧ item.kind = .chunk ∧
      item.text ∈ incompletePatterns then
    {st with rejected := st.rejected ++
      [⟨item.text, item.kind, item.src, 0.45, false, some "incomplete_pattern",
        item.canonicalKey, 0⟩]}
  else if (item.kind ≠ .pattern ∧ item.kind ≠ .sentence) ∧ item.kind = .chunk ∧
      10 ≤ (firstDedup (tokenizeText item.text)).length ∧
      ¬ strStartsWith item.canonicalKey "pattern:" then
    {st with rejected := st.rejected ++
      [⟨item.text, item.kind, item.src, 0.5, false, some "too_broad", item.canonicalKey, 0⟩]}
  else if (item.kind ≠ .pattern ∧ item.kind ≠ .sentence) ∧ item.text.length ≤ 1 then
    {st with rejected := st.rejected ++
      [⟨item.text, item.kind, item.src, 0.3, false, some "too_short", item.canonicalKey, 0⟩]}
  else if (item.kind ≠ .pattern ∧ item.kind ≠ .sentence) ∧ item.text ∈ stopWords then
    {st with rejected := st.rejected ++
      [⟨item.text, item.kind, item.src, 0.35, false, some "stop_word", item.canonicalKey, 0⟩]}
  else if hasCorrection ∧
      inCorrectedB correctedText item.text item.canonicalKey item.kind = false ∧
      (item.kind = .chunk ∨ item.kind = .word) then
    {st with rejected := st.rejected ++
      [⟨item.text, item.kind, item.src, 0.5, false, some "grammar_invalid", item.canonicalKey,
        missionRelevanceFor mkw (firstDedup (tokenizeText item.text)) item.kind⟩]}
  else if confFor sourceText correctedText item.text item.canonicalKey item.kind < 0.6 then
    {st with rejected := st.rejected ++
      [⟨item.text, item.kind, item.src,
        confFor sourceText correctedText item.text item.canonicalKey item.kind, false,
        some "low_confidence", item.canonicalKey,
        missionRelevanceFor mkw (firstDedup (tokenizeText item.text)) item.kind⟩]}
  else if confFor sourceText correctedText item.text item.canonicalKey item.kind < 0.72 ∧
      missionRelevanceFor mkw (firstDedup (tokenizeText item.text)) item.kind < 0.5 then
    {st with rejected := st.rejected ++
      [⟨item.text, item.kind, item.src,
        confFor sourceText correctedText item.text item.canonicalKey item.kind, false,
        some "off_mission", item.canonicalKey,
        missionRelevanceFor mkw (firstDedup (tokenizeText item.text)) item.kind⟩]}
  else if (item.kind = .chunk ∨ item.kind = .word) ∧ firstDedup (tokenizeText item.text) ≠ [] ∧
      (∃ p ∈ st.selPatternTokenSets, ∀ t ∈ firstDedup (tokenizeText item.text), t ∈ p) then
    {st with rejected := st.rejected ++
      [⟨item.text, item.kind, item.src,
        confFor sourceText correctedText item.text item.canonicalKey item.kind, false,
        some "covered_by_pattern", item.canonicalKey,
        missionRelevanceFor mkw (firstDedup (tokenizeText item.text)) item.kind⟩]}
  else if item.kind = .word ∧
      (∃ s ∈ st.selTokenSets, ∀ t ∈ firstDedup (tokenizeText item.text), t ∈ s) ∧
      missionRelevanceFor mkw (firstDedup (tokenizeText item.text)) item.kind < 0.95 then
    {st with rejected := st.rejected ++
      [⟨item.text, item.kind, item.src,
        confFor sourceText correctedText item.text item.canonicalKey item.kind, false,
        some "covered_by_chunk", item.canonicalKey,
        missionRelevanceFor mkw (firstDedup (tokenizeText item.text)) item.kind⟩]}
  else
    { accepted := st.accepted ++
        [⟨item.text, item.kind, item.src,
          confFor sourceText correctedText item.text item.canonicalKey item.kind, true, none,
          item.canonicalKey,
          missionRelevanceFor mkw (firstDedup (tokenizeText item.text)) item.kind⟩]
      rejected := st.rejected
      selTokenSets := st.selTokenSets ++ [firstDedup (tokenizeText item.text)]
      selPatternTokenSets :=
        if item.kind = .pattern ∨ item.kind = .sentence then
          st.selPatternTokenSets ++ [firstDedup (tokenizeText item.text)]
        else st.selPatternTokenSets }

/-- The whole gate loop: fold `gateStep` over the canonical units in order,
starting from the empty state. -/
def gateRun (sourceText correctedText : String) (hasCorrection : Bool)
    (mkw : List String) (items : List CanonicalItem) : GateSt :=
  items.foldl (gateStep sourceText correctedText hasCorrection mkw) ⟨[], [], [], []⟩

/-- The turn-level quality score (`conversation.py` lines 394-396):
`clamp01(accepted/max(1,total) * 0.7 + (0.3 if any accepted else 0) - penalty)`. -/
def qualityFormula (a n : Nat) (penalty : ℚ) : ℚ :=
  max 0 (min 1 ((a : ℚ) / max 1 (n : ℚ) * 0.7 + (if 0 < a then (0.3 : ℚ) else 0) - penalty))

/-- Result record of `_strict_validate_units`. -/
structure GateResult where
  accepted : List ValidatedUnit
  rejected : List ValidatedUnit
  quality : ℚ
deriving Repr

/-- `_strict_validate_units`: normalize inputs, canonicalize candidates
(falling back to heuristic extraction when the AI list is empty), run the
gate over each canonical unit in order, and compute the quality score. -/
def strictValidateUnits (userText correctedForm : String) (rawUnits : List String)
    (missionHint : String) : GateResult :=
  let sourceText := normalizeText userText
  let correctedText := if correctedForm ≠ "" then normalizeText correctedForm else sourceText
  let candidates := if rawUnits ≠ [] then rawUnits else extractUserVocabulary userText
  let canonicalItems := canonicalizeCandidates candidates correctedText sourceText
  let mkw := missionKeywords missionHint
  let st := gateRun sourceText correctedText (correctedForm ≠ "") mkw canonicalItems
  let penalty : ℚ :=
    if correctedForm ≠ "" ∧ normalizeText correctedForm ≠ sourceText then 0.2 else 0
  ⟨st.accepted, st.rejected, qualityFormula st.accepted.length canonicalItems.length penalty⟩

/-! ## Mission/Progress Tracker (`_process_turn` lines 630-637) -/

/-- The mission progress record `{done, total, percent}`. -/
structure MissionProg where
  done : Nat
  total : Nat
  percent : Nat
deriving DecidableEq, Repr

/-- The three fixed task outcomes: quality ≥ 0.7, ≥ 2 accepted units,
turn count ≥ 2. -/
def missionTasksDone (quality : ℚ) (acceptedCount turn : Nat) : List Bool :=
  [decide (0.7 ≤ quality), decide (2 ≤ acceptedCount), decide (2 ≤ turn)]

/-- Mission progress: `done` counts the true tasks and
`percent = int((done / 3) * 100)` (Python `int()` truncates toward zero). -/
def missionProgress (quality : ℚ) (acceptedCount turn : Nat) : MissionProg :=
  let done := (missionTasksDone quality acceptedCount turn).count true
  ⟨done, 3, (((done : ℚ) / 3) * 100).floor.toNat⟩

/-! ## Pedagogical filtering (`graph.py`: `_to_id`, `_is_component_of_phrase`,
`_pedagogical_items`) -/

/-- `_to_id`: strip, lowercase, spaces to underscores, drop apostrophes. -/
def toId (word : String) : String :=
  ⟨((stripChars word.data).map charLower).foldr
    (fun c acc => if c = ' ' then '_' :: acc else if c = '\'' ∨ c = '’' then acc else c :: acc) []⟩

/-- Python `s.split(sep)` with a one-character separator (keeps empty pieces). -/
def sepSplitAcc (sep : Char) (cur : List Char) : List Char → List (List Char)
  | [] => [cur.reverse]
  | c :: cs => if c = sep then cur.reverse :: sepSplitAcc sep [] cs else sepSplitAcc sep (c :: cur) cs

/-- `phrase.split(" ")` on a string. -/
def splitOnSpace (s : String) : List String :=
  (sepSplitAcc ' ' [] s.data).map fun cs => ⟨cs⟩

/-- `_is_component_of_phrase`: is `token` one of the space-separated words of
the multi-word `phrase` (and not the phrase itself)? -/
def isComponentOfPhrase (token phrase : String) : Bool :=
  let tokenN := normalizeText token
  let phraseN := normalizeText phrase
  if tokenN = "" || phraseN = "" || tokenN = phraseN then false
  else if !(phraseN.data.contains ' ') then false
  else tokenN ∈ splitOnSpace phraseN

/-- The low-signal token set of `_pedagogical_items`. -/
def lowSignalTokens : List String :=
  [ "ca", "ça", "va", "je", "tu", "il", "elle", "nous", "vous",
    "de", "du", "des", "un", "une", "et", "a", "est" ]

/-- `_pedagogical_items`: drop 1-char noise, low-signal tokens, over-long
non-pattern phrases and duplicates; then drop single words that are
components of a surviving phrase. -/
def pedagogicalItems (items : List String) : List String :=
  let cleaned := (items.foldl (fun (acc : List String × List String) raw =>
    let text : String := ⟨stripChars raw.data⟩
    if text.length ≤ 1 then acc
    else
      let n := normalizeText text
      if n ∈ lowSignalTokens then acc
      else if 6 ≤ (splitOnSpace n).length ∧
          ¬ (strStartsWith n "je suis +" ∨ strStartsWith n "j'aime +" ∨
             strStartsWith n "j'ai envie de +") then acc
      else if n = "" ∨ n ∈ acc.2 then acc
      else (acc.1 ++ [text], acc.2 ++ [n])) ([], [])).1
  let phrases := cleaned.filter fun x => (normalizeText x).data.contains ' '
  if phrases = [] then cleaned
  else cleaned.filter fun item => ¬ phrases.any fun ph => isComponentOfPhrase item ph

/-! ## Graph data model -/

/-- An AI-declared graph link inside a turn's response (`ResponseGraphLink`). -/
structure RespLink where
  source : String
  target : String
  type : String
deriving DecidableEq, Repr

/-- The per-turn record the Graph Builder reads from the session history. -/
structure TurnRec where
  turnNumber : Nat
  units : List ValidatedUnit
  graphLinks : List RespLink
  reactivated : List String
deriving Repr

/-- A knowledge-graph node (`GraphNode`). -/
structure GNode where
  id : String
  label : String
  type : String
  mastery : ℚ
  level : String
  turnIntroduced : Nat
deriving DecidableEq, Repr

/-- A knowledge-graph link (`GraphLink`). -/
structure GLink where
  source : String
  target : String
  relationship : String
  reason : String
  reasonDetail : String
  evidenceUnits : List String
  turnIntroduced : Nat
deriving DecidableEq, Repr

/-- Association-list lookup (Python `dict.get`). -/
def lookupA {α : Type} (m : List (String × α)) (k : String) : Option α :=
  (m.find? fun e => e.1 = k).map (·.2)

/-- Association-list insert-or-overwrite (Python `d[k] = v`, insertion order
kept). -/
def setA {α : Type} (m : List (String × α)) (k : String) (v : α) : List (String × α) :=
  if (m.find? fun e => e.1 = k).isSome then m.map fun e => if e.1 = k then (k, v) else e
  else m ++ [(k, v)]

/-! ## Graph nodes (`graph_nodes` in `graph.py`) -/

/-- The running per-word aggregate of `graph_nodes` (`unit_stats` entries). -/
structure UStat where
  count : Nat
  sumConf : ℚ
  firstTurn : Nat
  lastTurn : Nat
  canonical : String
deriving Repr

/-- The state threaded through the `graph_nodes` loops. -/
structure NodeSt where
  nodes : List GNode
  seenIds : List String
  stats : List (String × UStat)
deriving Repr

/-- Processing of one pedagogical word of one turn in `graph_nodes`: update
the aggregate stats, recompute the blended mastery, and `_add_node` (which
drops the word when its id was already seen). -/
def processWord (currentTurn : Nat) (masteryScores : List (String × ℚ)) (level : String)
    (tn : Nat) (acceptedUnits : List ValidatedUnit) (st : NodeSt) (word : String) : NodeSt :=
  if word = "" then st
  else
    let matched := acceptedUnits.filter fun u => normalizeText u.text = normalizeText word
    let unitKind := (matched.head?.map (·.kind)).getD .word
    let canonical := (matched.head?.map (·.canonicalKey)).getD ""
    let nodeType :=
      if unitKind = .chunk ∨ word.data.contains ' ' then "sentence"
      else if unitKind = .pattern then "grammar" else "vocab"
    let stat0 := (lookupA st.stats word).getD ⟨0, 0, tn, tn, canonical⟩
    let conf := (matched.head?.map (·.confidence)).getD 0.75
    let stat : UStat :=
      ⟨stat0.count + 1, stat0.sumConf + conf, stat0.firstTurn, tn,
       if canonical ≠ "" then canonical else stat0.canonical⟩
    let stats := setA st.stats word stat
    let avgConf := stat.sumConf / max 1 (stat.count : ℚ)
    let reuseScore := min 1 (((stat.count : ℚ) - 1) / 4)
    let recencyDecay := max 0 (1 - ((currentTurn : ℚ) - (stat.lastTurn : ℚ)) * 0.08)
    let learned0 := 0.22 + avgConf * 0.38 + reuseScore * 0.30 + recencyDecay * 0.10
    let learned := if unitKind = .pattern then learned0 + 0.05 else learned0
    let historyMastery := (lookupA masteryScores word).getD learned
    let mastery := min 1 (max 0.15 (learned * 0.65 + historyMastery * 0.35))
    let nodeId := toId word
    if nodeId = "" ∨ nodeId ∈ st.seenIds then {st with stats := stats}
    else
      { nodes := st.nodes ++ [⟨nodeId, word, nodeType, min 1 (max 0 mastery), level, tn⟩]
        seenIds := st.seenIds ++ [nodeId]
        stats := stats }

/-- `graph_nodes`: rebuild the node list from the accepted validated units of
the whole session history. -/
def graphNodes (history : List TurnRec) (currentTurn : Nat)
    (masteryScores : List (String × ℚ)) (level : String) : List GNode :=
  (history.foldl (fun st t =>
    let acceptedUnits := t.units.filter (·.isAccepted)
    let accepted := acceptedUnits.map (·.text)
    (pedagogicalItems accepted).foldl
      (processWord currentTurn masteryScores level t.turnNumber acceptedUnits) st)
    ⟨[], [], []⟩).nodes

/-! ## Graph links (`graph_links` in `graph.py`) -/

/-- The node-id set derived from accepted validated units (`graph_links`
lines 170-179). -/
def nodeIdSet (history : List TurnRec) : List String :=
  history.foldl (fun acc t =>
    let accepted := (t.units.filter (·.isAccepted)).map (·.text)
    (pedagogicalItems accepted).foldl
      (fun acc2 w => if w ≠ "" then acc2 ++ [toId w] else acc2) acc) []

/-- A pending `_add_link` call: source, target, relationship, turn, detail,
evidence. -/
structure LinkReq where
  src : String
  tgt : String
  rel : String
  turn : Nat
  detail : String
  evidence : List String
deriving Repr

/-- The state of the link accumulation (`seen` pair set and link list). -/
structure LinkSt where
  seen : List (String × String)
  links : List GLink
deriving Repr

/-- `_add_link`: keep a link only when both endpoints resolve to distinct
existing node ids and the unordered id pair was not seen before. -/
def addLink (nodeIds : List String) (st : LinkSt) (r : LinkReq) : LinkSt :=
  let srcId := toId r.src
  let tgtId := toId r.tgt
  if srcId = "" ∨ tgtId = "" ∨ srcId = tgtId then st
  else if srcId ∉ nodeIds ∨ tgtId ∉ nodeIds then st
  else
    let key := (min srcId tgtId, max srcId tgtId)
    if key ∈ st.seen then st
    else
      { seen := st.seen ++ [key]
        links := st.links ++
          [⟨srcId, tgtId, r.rel, r.rel, r.detail, r.evidence.take 2, r.turn⟩] }

/-- The relationship-type table of strategy 1 (`rel_map.get(type, "semantic")`). -/
def relMap (t : String) : String :=
  if t = "semantic" then "semantic"
  else if t = "conjugation" then "conjugation"
  else if t = "prerequisite" then "prerequisite"
  else if t = "correction" then "reactivation"
  else "semantic"

/-- Adjacent pairs `(xs[i], xs[i+1])`. -/
def adjPairs {α : Type} : List α → List (α × α)
  | a :: b :: rest => (a, b) :: adjPairs (b :: rest)
  | _ => []

/-- Strategy 1 requests: AI-provided explicit graph links. -/
def strategy1Reqs (history : List TurnRec) : List LinkReq :=
  history.flatMap fun t => t.graphLinks.map fun gl =>
    ⟨gl.source, gl.target, relMap gl.type, t.turnNumber,
     "Explicit pedagogical relationship provided by tutor.", [gl.source, gl.target]⟩

/-- The `by_key` grouping of strategy 2 (insertion-ordered dict of lists). -/
def byKeyOf (acceptedUnits : List ValidatedUnit) : List (String × List String) :=
  acceptedUnits.foldl (fun m u =>
    if u.canonicalKey = "" ∨ u.text = "" then m
    else match lookupA m u.canonicalKey with
      | none => m ++ [(u.canonicalKey, [u.text])]
      | some ts => setA m u.canonicalKey (ts ++ [u.text])) []

/-- Strategy 2 requests: units sharing a canonical key, chained pairwise. -/
def strategy2Reqs (history : List TurnRec) : List LinkReq :=
  history.flatMap fun t =>
    let acceptedUnits := t.units.filter (·.isAccepted)
    (byKeyOf acceptedUnits).flatMap fun e =>
      if e.2.length < 2 then []
      else
        (adjPairs (firstDedup e.2)).map fun p =>
          ⟨p.1, p.2, if strStartsWith e.1 "pattern:" then "conjugation" else "semantic",
           t.turnNumber, "Units share canonical key '" ++ e.1 ++ "'.", [p.1, p.2]⟩

/-- Strategy 3 requests: reactivated elements paired with mission-relevant
accepted units. -/
def strategy3Reqs (history : List TurnRec) : List LinkReq :=
  history.flatMap fun t =>
    let acceptedUnits := t.units.filter (·.isAccepted)
    let accepted := pedagogicalItems (acceptedUnits.map (·.text))
    if accepted = [] then []
    else
      let missionUnits0 := pedagogicalItems
        ((acceptedUnits.filter fun u => (0.55 : ℚ) ≤ u.missionRelevance).map (·.text))
      let missionUnits := if missionUnits0 = [] then accepted.take 1 else missionUnits0
      let reactivated := pedagogicalItems t.reactivated
      if reactivated = [] then []
      else
        (reactivated.take 2).flatMap fun oldU =>
          (missionUnits.take 2).flatMap fun newU =>
            if normalizeText oldU = normalizeText newU then []
            else
              [⟨oldU, newU, "mission", t.turnNumber,
                "Tutor reused fading knowledge inside a new mission objective.", [oldU, newU]⟩]

/-- All `_add_link` calls of `graph_links`, in execution order. -/
def linkRequests (history : List TurnRec) : List LinkReq :=
  strategy1Reqs history ++ strategy2Reqs history ++ strategy3Reqs history

/-- The merged, deduplicated link list before the degree cap. -/
def buildLinks (history : List TurnRec) : List GLink :=
  ((linkRequests history).foldl (addLink (nodeIdSet history)) ⟨[], []⟩).links

/-- The relationship priority table of the degree cap. -/
def priorityOf (rel : String) : Nat :=
  if rel = "mission" then 5
  else if rel = "reactivation" then 4
  else if rel = "prerequisite" then 3
  else if rel = "conjugation" then 2
  else if rel = "semantic" then 1
  else 0

/-- The sort key `(priority, turn_introduced)` of a link. -/
def linkSortKey (l : GLink) : Nat × Nat :=
  (priorityOf l.relationship, l.turnIntroduced)

/-- Strict lexicographic comparison of sort keys. -/
def keyLtP (a b : Nat × Nat) : Prop :=
  a.1 < b.1 ∨ (a.1 = b.1 ∧ a.2 < b.2)

instance (a b : Nat × Nat) : Decidable (keyLtP a b) := by
  unfold keyLtP; infer_instance

/-- Stable insertion into a descending-sorted list: `x` goes before the first
strictly smaller element (equal keys keep their original relative order, as
Python `sorted(..., reverse=True)` does). -/
def insertDesc (x : GLink) : List GLink → List GLink
  | [] => [x]
  | y :: ys => if keyLtP (linkSortKey y) (linkSortKey x) then x :: y :: ys else y :: insertDesc x ys

/-- `sorted(links, key=(priority, turn), reverse=True)` as a stable insertion
sort. -/
def sortLinksDesc (ls : List GLink) : List GLink :=
  ls.foldl (fun acc l => insertDesc l acc) []

/-- The greedy degree-cap state: running degree map and kept links. -/
structure CapSt where
  degree : String → Nat
  kept : List GLink

/-- One step of the degree cap: keep the link only when neither endpoint has
reached degree 4, then bump both endpoint degrees. -/
def capStep (st : CapSt) (l : GLink) : CapSt :=
  if 4 ≤ st.degree l.source ∨ 4 ≤ st.degree l.target then st
  else
    { degree := fun x =>
        ((if x = l.source then 1 else 0) + (if x = l.target then 1 else 0)) + st.degree x
      kept := st.kept ++ [l] }

/-- The degree-capping pass of `graph_links`. -/
def capLinks (ls : List GLink) : List GLink :=
  ((sortLinksDesc ls).foldl capStep ⟨fun _ => 0, []⟩).kept

/-- `graph_links`: the three merged strategies followed by the degree cap. -/
def graphLinks (history : List TurnRec) : List GLink :=
  capLinks (buildLinks history)

/-- Number of links in `ls` touching node `x` (its degree). -/
def degreeCount (ls : List GLink) (x : String) : Nat :=
  (ls.filter fun l => l.source = x).length + (ls.filter fun l => l.target = x).length

/-- The unordered endpoint pair of a link. -/
def ukey (l : GLink) : String × String :=
  (min l.source l.target, max l.source l.target)

/-! ## Concrete scenarios referenced by the claims -/

/-- Scenario B input: AI vocabulary `["ça va", "ca", "va"]`, empty corrected
form — the canonicalizer's output. -/
def scenarioBUnits : List CanonicalItem :=
  canonicalizeCandidates ["ça va", "ca", "va"] "" ""

/-- Scenario B after pedagogical filtering: the canonical units whose text
survives `_pedagogical_items`. -/
def scenarioBSurvivors : List CanonicalItem :=
  scenarioBUnits.filter fun u => u.text ∈ pedagogicalItems (scenarioBUnits.map (·.text))

/-- An accepted `word:bonjour` unit with the given confidence. -/
def bonjourUnit (c : ℚ) : ValidatedUnit :=
  ⟨"bonjour", .word, .asSaid, c, true, none, "word:bonjour", 0⟩

/-- Scenario D history: the same accepted unit in two consecutive turns with
confidences 0.9 and 0.75. -/
def scenarioDHistory : List TurnRec :=
  [⟨1, [bonjourUnit 0.9], [], []⟩, ⟨2, [bonjourUnit 0.75], [], []⟩]

/-- The output unit of the gate run on utterance `"bonsoir"`, corrected form
`"salut"` and AI vocabulary `["je mange une pomme"]`: a sentence attested in
neither text. -/
def unattestedSentenceUnit : ValidatedUnit :=
  ⟨"je mange une pomme", .sentence, .corrected, 0.9, true, none,
   "sentence:je mange une pomme", 0.7⟩

/-- The canonical unit both duplicate `je suis …` candidates collapse to. -/
def jeSuisPatternItem : CanonicalItem :=
  ⟨"je suis + [noun]", .pattern, .corrected, "pattern:identity_je_suis_noun"⟩

/-- A one-turn history with two accepted units sharing a canonical key, used
to exercise the link builder on a concrete input. -/
def sharedKeyTurn : TurnRec :=
  ⟨1, [⟨"bonjour", .word, .asSaid, 0.9, true, none, "k1", 0⟩,
       ⟨"bonsoir", .word, .asSaid, 0.9, true, none, "k1", 0⟩], [], []⟩

/-- The single link `graph_links` produces for `sharedKeyTurn`. -/
def sharedKeyLink : GLink :=
  ⟨"bonjour", "bonsoir", "semantic", "semantic", "Units share canonical key 'k1'.",
   ["bonjour", "bonsoir"], 1⟩

/-! ## Invariant predicates used by the theorems -/

/-- Rejection reasons assigned at or after the confidence computation (plus
acceptance); units carrying one of these traversed lines 341-345. -/
def lateReason (r : Option String) : Prop :=
  r = none ∨ r = some "low_confidence" ∨ r = some "off_mission" ∨
    r = some "covered_by_pattern" ∨ r = some "covered_by_chunk"

instance (r : Option String) : Decidable (lateReason r) := by
  unfold lateReason; infer_instance

/-- Every unit of the gate state that reached the confidence step carries
exactly the confidence `confFor` computes from its fields. -/
def ConfInv (sourceText correctedText : String) (st : GateSt) : Prop :=
  ∀ u ∈ st.accepted ++ st.rejected, lateReason u.rejectReason →
    u.confidence = confFor sourceText correctedText u.text u.canonicalKey u.kind

/-- Invariant of the key-grouping dict: keys are distinct, every entry is one
of the processed items, its rank dominates all processed items with its key,
and every processed key has an entry. -/
def GroupInv (m processed : List CanonicalItem) : Prop :=
  ((m.map (·.canonicalKey)).Nodup) ∧
  (∀ e ∈ m, e ∈ processed) ∧
  (∀ e ∈ m, ∀ it ∈ processed, it.canonicalKey = e.canonicalKey → rank it.kind ≤ rank e.kind) ∧
  (∀ it ∈ processed, ∃ e ∈ m, e.canonicalKey = it.canonicalKey)

/-- A link is well-formed w.r.t. a node-id set: distinct endpoints, both
present as nodes. -/
def LinkOk (nodeIds : List String) (l : GLink) : Prop :=
  l.source ≠ l.target ∧ l.source ∈ nodeIds ∧ l.target ∈ nodeIds

/-- Invariant of the link accumulation: unordered endpoint pairs are distinct
and recorded in `seen`. -/
def SeenInv (st : LinkSt) : Prop :=
  ((st.links.map ukey).Nodup) ∧ ∀ l ∈ st.links, ukey l ∈ st.seen

end Tutor

section Claims

open Tutor

/-! ## C10 — heuristic fallback extraction never returns an empty list -/

/-- C10: for every utterance whose stripped text is non-empty,
`_extract_user_vocabulary` returns a non-empty list — when every token is
filtered out as a stop word or as too short, it falls back to the original
stripped text. -/
theorem extractUserVocabulary_nonempty (s : String)
    (h : (⟨stripChars s.data⟩ : String) ≠ "") :
    extractUserVocabulary s ≠ [] := by
  unfold extractUserVocabulary
  simp only [if_neg h]
  split
  · exact List.cons_ne_nil _ _
  · rename_i hcond
    intro hres
    exact hcond ⟨hres, h⟩

/-- C10 witness: `" le "` strips to `"le"`, whose only token is a stop word,
so the extractor falls back to `["le"]` — in particular a non-empty list. -/
theorem extractUserVocabulary_nonempty_witness :
    ((⟨stripChars " le ".data⟩ : String) ≠ "") ∧ extractUserVocabulary " le " ≠ [] :=
  ⟨by decide, extractUserVocabulary_nonempty " le " (by decide)⟩

/-! ## C3 — mission progress percent truncates rather than rounds -/

unseal Rat.ofScientific Rat.mul Rat.inv Rat.add Rat.sub in
/-- C3 counterexample: with quality 0.8, 2 accepted units and turn count 1,
exactly two tasks are done and the computed percent is 66, while rounding
`2/3*100` gives 67 — so `percent = round(done/3*100)` fails at `done = 2`. -/
theorem missionProgress_not_rounded :
    missionProgress 0.8 2 1 = ⟨2, 3, 66⟩ ∧ round (((2 : ℚ) / 3) * 100) = (67 : ℤ) ∧
      (66 : ℕ) ≠ 67 :=
  ⟨by decide, by decide, by decide⟩

unseal Rat.ofScientific Rat.mul Rat.inv Rat.add Rat.sub in
/-- C3 (amended): the progress record is `{done, 3, percent}` where `done`
counts the satisfied tasks and `percent` is `done/3*100` truncated toward
zero (integer division); in particular `done = 2` yields 66. -/
theorem missionProgress_floor_percent (q : ℚ) (a t : Nat) :
    missionProgress q a t =
      ⟨(missionTasksDone q a t).count true, 3, (missionTasksDone q a t).count true * 100 / 3⟩ := by
  unfold missionProgress
  have hle : (missionTasksDone q a t).count true ≤ 3 := by
    simpa using List.count_le_length true (missionTasksDone q a t)
  generalize (missionTasksDone q a t).count true = d at hle ⊢
  interval_cases d <;> decide

/-! ## C7 — quality score is monotone in the number of accepted units -/

/-- C7: with the unit count and correction penalty fixed, the quality score
`clamp01(a/max(1,n) * 0.7 + (0.3 if a > 0 else 0) - penalty)` never
decreases when the accepted count `a` grows. -/
theorem qualityFormula_monotone (a a' n : Nat) (pen : ℚ)
    (hn : 1 ≤ n) (haa : a ≤ a') (han : a' ≤ n) :
    qualityFormula a n pen ≤ qualityFormula a' n pen := by
  unfold qualityFormula
  refine max_le_max le_rfl (min_le_min le_rfl (sub_le_sub_right (add_le_add ?_ ?_) pen))
  · have hpos : (0 : ℚ) < max 1 (n : ℚ) := lt_of_lt_of_le one_pos (le_max_left _ _)
    have hcast : (a : ℚ) ≤ (a' : ℚ) := by exact_mod_cast haa
    have hq : (a : ℚ) / max 1 (n : ℚ) ≤ (a' : ℚ) / max 1 (n : ℚ) :=
      (div_le_div_iff_of_pos_right hpos).mpr hcast
    have h07 : (0 : ℚ) ≤ 0.7 := by norm_num
    exact mul_le_mul_of_nonneg_right hq h07
  · by_cases ha : 0 < a
    · have ha' : 0 < a' := lt_of_lt_of_le ha haa
      simp [ha, ha']
    · by_cases ha' : 0 < a' <;> simp [ha, ha'] <;> norm_num

unseal Rat.ofScientific Rat.mul Rat.inv Rat.add Rat.sub in
/-- C7 witness: at two units total, going from one accepted unit to two
(no correction penalty) the quality score does not decrease. -/
theorem qualityFormula_monotone_witness :
    1 ≤ 2 ∧ (1 : Nat) ≤ 2 ∧ (2 : Nat) ≤ 2 ∧ qualityFormula 1 2 0 ≤ qualityFormula 2 2 0 :=
  ⟨by decide, by decide, by decide, qualityFormula_monotone 1 2 2 0 (by decide) (by decide) (by decide)⟩

/-! ## C4 — Scenario B yields one surviving unit, but of pattern kind -/

/-- C4 counterexample: for AI vocabulary `["ça va", "ca", "va"]` with an empty
corrected form, the single unit surviving canonicalization and pedagogical
filtering has kind `pattern` (promoted by the ça-va greeting rule), not
`chunk` as the claim states. -/
theorem scenarioB_survivor_not_chunk :
    scenarioBSurvivors.map (fun u => (u.text, u.kind)) = [("ça va", Kind.pattern)] ∧
      Kind.pattern ≠ Kind.chunk :=
  ⟨by decide, by decide⟩

/-- C4 (amended): canonicalization followed by pedagogical filtering yields
exactly one surviving unit, the pattern-kind `"ça va"` greeting unit (the
split tokens `"ca"` and `"va"` are dropped by the low-signal filter). -/
theorem scenarioB_survivors :
    scenarioBSurvivors = [⟨"ça va", Kind.pattern, UnitSource.corrected, "pattern:greeting_ca_va"⟩] := by
  decide

/-! ## C8 — non-string candidates: falsy values are skipped, truthy ones raise -/

/-- C8 counterexample: a candidate list containing the integer 5 makes the
canonicalizer raise `AttributeError` (from `(value or "").strip()`), aborting
the turn rather than skipping the entry. -/
theorem canonicalizeDyn_int_raises :
    canonicalizeCandidatesDyn [PyVal.pint 5] "" "" = Except.error "AttributeError" := rfl

/-- `_normalize_text` on a safe (string or falsy) dynamic value coerces it to
a string and never raises. -/
theorem normalizeTextDyn_safe (v : PyVal) (h : pyValSafe v = true) :
    normalizeTextDyn v = Except.ok (normalizeText (pyValToStr v)) := by
  cases v with
  | pstr s => rfl
  | pnone => rfl
  | pint n =>
    have hn : n = 0 := by simpa [pyValSafe] using h
    subst hn
    rfl

/-- C8 (amended): when every non-string entry of the candidate list is falsy
(None or 0) the canonicalizer skips or coerces it to the empty string and
returns the same valid unit list as the all-strings run — a type error is
propagated only by a truthy non-string entry. -/
theorem canonicalizeDyn_safe_ok (raws : List PyVal) (corr src : String)
    (h : ∀ v ∈ raws, pyValSafe v = true) :
    canonicalizeCandidatesDyn raws corr src =
      Except.ok (canonicalizeCandidates (raws.map pyValToStr) corr src) := by
  unfold canonicalizeCandidatesDyn canonicalizeCandidates preGroupItems
  have key : ∀ (init : List CanonicalItem × List String),
      raws.foldlM (fun a v => (normalizeTextDyn v).map (canonAccum src a)) init =
        Except.ok ((raws.map pyValToStr).foldl (fun a r => canonAccum src a (normalizeText r)) init) := by
    induction raws with
    | nil => intro init; rfl
    | cons v vs ih =>
      intro init
      have hv : pyValSafe v = true := h v (List.mem_cons_self v vs)
      have hvs : ∀ w ∈ vs, pyValSafe w = true := fun w hw => h w (List.mem_cons_of_mem v hw)
      simp only [List.foldlM_cons, normalizeTextDyn_safe v hv, Except.map, List.map_cons,
        List.foldl_cons]
      exact (ih hvs) _
  rw [key]
  rfl

/-- C8 witness: a list mixing a proper string, None and 0 canonicalizes
without error, to the very list the all-strings canonicalizer produces. -/
theorem canonicalizeDyn_safe_ok_witness :
    (∀ v ∈ [PyVal.pstr "bonjour", PyVal.pnone, PyVal.pint 0], pyValSafe v = true) ∧
      canonicalizeCandidatesDyn [PyVal.pstr "bonjour", PyVal.pnone, PyVal.pint 0] "" "" =
        Except.ok (canonicalizeCandidates
          ([PyVal.pstr "bonjour", PyVal.pnone, PyVal.pint 0].map pyValToStr) "" "") :=
  ⟨by decide, canonicalizeDyn_safe_ok [PyVal.pstr "bonjour", PyVal.pnone, PyVal.pint 0] "" ""
    (by decide)⟩

/-! ## C2 — confidence: attestation is overridden for sentence/pattern units -/

unseal Rat.ofScientific Rat.mul Rat.inv Rat.add Rat.sub in
/-- C2 counterexample: with utterance `"bonsoir"` and corrected form
`"salut"`, the sentence candidate `"je mange une pomme"` is attested in
neither text, yet the gate assigns it confidence 0.9 — not the 0.55 floored
to 0.85 the claim predicts. -/
theorem sentence_unattested_confidence :
    (strictValidateUnits "bonsoir" "salut" ["je mange une pomme"] "").accepted =
      [unattestedSentenceUnit] ∧
    strContains (normalizeText "bonsoir") "je mange une pomme" = false ∧
    strContains (normalizeText "salut") "je mange une pomme" = false ∧
    unattestedSentenceUnit.confidence = 0.9 ∧ (0.9 : ℚ) ≠ 0.85 :=
  ⟨by decide, by decide, by decide, by decide, by decide⟩

/-- Appending a rejected unit whose confidence satisfies the invariant's
conclusion (or whose reason is not late) preserves `ConfInv`. -/
theorem ConfInv_append_rejected (src corr : String) (st : GateSt) (u₀ : ValidatedUnit)
    (h : ConfInv src corr st)
    (hnew : lateReason u₀.rejectReason →
      u₀.confidence = confFor src corr u₀.text u₀.canonicalKey u₀.kind) :
    ConfInv src corr {st with rejected := st.rejected ++ [u₀]} := by
  intro u hu hl
  rcases List.mem_append.1 hu with hu | hu
  · exact h u (List.mem_append.2 (.inl hu)) hl
  · rcases List.mem_append.1 hu with hu | hu
    · exact h u (List.mem_append.2 (.inr hu)) hl
    · have he : u = u₀ := List.mem_singleton.1 hu
      subst he
      exact hnew hl

/-- Appending an accepted unit whose confidence satisfies the invariant's
conclusion preserves `ConfInv` (the token-set components are arbitrary). -/
theorem ConfInv_append_accepted (src corr : String) (st : GateSt) (u₀ : ValidatedUnit)
    (sel selP : List (List String)) (h : ConfInv src corr st)
    (hnew : u₀.confidence = confFor src corr u₀.text u₀.canonicalKey u₀.kind) :
    ConfInv src corr ⟨st.accepted ++ [u₀], st.rejected, sel, selP⟩ := by
  intro u hu hl
  rcases List.mem_append.1 hu with hu | hu
  · rcases List.mem_append.1 hu with hu | hu
    · exact h u (List.mem_append.2 (.inl hu)) hl
    · have he : u = u₀ := List.mem_singleton.1 hu
      subst he
      exact hnew
  · exact h u (List.mem_append.2 (.inr hu)) hl

/-- Case analysis on an if-then-else under an arbitrary predicate (used to
walk the gate's rule chain without normalising the whole term). -/
theorem propOfIte {c : Prop} [Decidable c] {α : Type} (a b : α) (P : α → Prop)
    (h1 : c → P a) (h2 : ¬c → P b) : P (if c then a else b) := by
  by_cases hc : c
  · rw [if_pos hc]; exact h1 hc
  · rw [if_neg hc]; exact h2 hc

/-- One gate step preserves the confidence invariant. -/
theorem gateStep_ConfInv (src corr : String) (hc : Bool) (mkw : List String)
    (st : GateSt) (item : CanonicalItem) (h : ConfInv src corr st) :
    ConfInv src corr (gateStep src corr hc mkw st item) := by
  unfold gateStep
  refine propOfIte _ _ (ConfInv src corr)
    (fun _ => ConfInv_append_rejected src corr st _ h (fun hl => by simp [lateReason] at hl))
    (fun _ => ?_)
  refine propOfIte _ _ (ConfInv src corr)
    (fun _ => ConfInv_append_rejected src corr st _ h (fun hl => by simp [lateReason] at hl))
    (fun _ => ?_)
  refine propOfIte _ _ (ConfInv src corr)
    (fun _ => ConfInv_append_rejected src corr st _ h (fun hl => by simp [lateReason] at hl))
    (fun _ => ?_)
  refine propOfIte _ _ (ConfInv src corr)
    (fun _ => ConfInv_append_rejected src corr st _ h (fun hl => by simp [lateReason] at hl))
    (fun _ => ?_)
  refine propOfIte _ _ (ConfInv src corr)
    (fun _ => ConfInv_append_rejected src corr st _ h (fun hl => by simp [lateReason] at hl))
    (fun _ => ?_)
  refine propOfIte _ _ (ConfInv src corr)
    (fun _ => ConfInv_append_rejected src corr st _ h (fun _ => rfl))
    (fun _ => ?_)
  refine propOfIte _ _ (ConfInv src corr)
    (fun _ => ConfInv_append_rejected src corr st _ h (fun _ => rfl))
    (fun _ => ?_)
  refine propOfIte _ _ (ConfInv src corr)
    (fun _ => ConfInv_append_rejected src corr st _ h (fun _ => rfl))
    (fun _ => ?_)
  refine propOfIte _ _ (ConfInv src corr)
    (fun _ => ConfInv_append_rejected src corr st _ h (fun _ => rfl))
    (fun _ => ?_)
  exact ConfInv_append_accepted src corr st _ _ _ h rfl

/-- The whole gate run preserves the confidence invariant. -/
theorem gateRun_ConfInv (src corr : String) (hc : Bool) (mkw : List String)
    (items : List CanonicalItem) :
    ConfInv src corr (gateRun src corr hc mkw items) := by
  have key : ∀ (items : List CanonicalItem) (st : GateSt), ConfInv src corr st →
      ConfInv src corr (items.foldl (gateStep src corr hc mkw) st) := by
    intro items
    induction items with
    | nil => exact fun st h => h
    | cons it its ih =>
      intro st h
      exact ih _ (gateStep_ConfInv src corr hc mkw st it h)
  refine key _ _ ?_
  intro u hu
  simp at hu

/-- C2 (amended): every unit that reaches the confidence-computation step
(accepted, or rejected at/after it) carries the confidence `confFor` derived
from deemed attestation: sentence-kind units count as attested in both texts
and pattern-keyed units as attested in the corrected form; the result is 0.9
for both, 0.75 for exactly one, 0.55 for neither, floored at 0.82 for
patterns and 0.85 for sentences. -/
theorem strictValidateUnits_confidence (userText correctedForm missionHint : String)
    (rawUnits : List String) (u : ValidatedUnit)
    (hu : u ∈ (strictValidateUnits userText correctedForm rawUnits missionHint).accepted ++
      (strictValidateUnits userText correctedForm rawUnits missionHint).rejected)
    (hl : lateReason u.rejectReason) :
    u.confidence = confFor (normalizeText userText)
      (if correctedForm ≠ "" then normalizeText correctedForm else normalizeText userText)
      u.text u.canonicalKey u.kind := by
  have hrun := gateRun_ConfInv (normalizeText userText)
    (if correctedForm ≠ "" then normalizeText correctedForm else normalizeText userText)
    (correctedForm ≠ "") (missionKeywords missionHint)
    (canonicalizeCandidates
      (if rawUnits ≠ [] then rawUnits else extractUserVocabulary userText)
      (if correctedForm ≠ "" then normalizeText correctedForm else normalizeText userText)
      (normalizeText userText))
  exact hrun u hu hl

unseal Rat.ofScientific Rat.mul Rat.inv Rat.add Rat.sub in
/-- C2 witness: the accepted sentence of the counterexample run instantiates
the amended confidence formula. -/
theorem strictValidateUnits_confidence_witness :
    unattestedSentenceUnit ∈
      (strictValidateUnits "bonsoir" "salut" ["je mange une pomme"] "").accepted ++
        (strictValidateUnits "bonsoir" "salut" ["je mange une pomme"] "").rejected ∧
    lateReason unattestedSentenceUnit.rejectReason ∧
    unattestedSentenceUnit.confidence = confFor (normalizeText "bonsoir")
      (if ("salut" : String) ≠ "" then normalizeText "salut" else normalizeText "bonsoir")
      unattestedSentenceUnit.text unattestedSentenceUnit.canonicalKey
      unattestedSentenceUnit.kind :=
  ⟨by decide, by decide,
   strictValidateUnits_confidence "bonsoir" "salut" "" ["je mange une pomme"]
     unattestedSentenceUnit (by decide) (by decide)⟩

/-! ## C1 — node mastery only reflects the first occurrence of a unit -/

unseal Rat.ofScientific Rat.mul Rat.inv Rat.add Rat.sub in
/-- C1 (code bug): on the Scenario D history — `"bonjour"` accepted in turns
1 and 2 with confidences 0.9 and 0.75, read at turn 3 — `graph_nodes`
returns one node whose mastery 0.646 comes from the first occurrence alone
(avg_confidence 0.9, reuse_score 0, recency_decay 0.84): `_add_node` skips
the recomputed node once the id is seen.  The value the claim (and the
aggregate machinery itself) prescribes, from avg_confidence 0.825,
reuse_score 0.25 and recency_decay 0.92, is 0.7005 ≠ 0.646. -/
theorem scenarioD_mastery_first_occurrence :
    graphNodes scenarioDHistory 3 [] "A1" =
      [⟨"bonjour", "bonjour", "vocab", 323/500, "A1", 1⟩] ∧
    (323/500 : ℚ) =
      (let learned : ℚ := 0.22 + 0.9 * 0.38 + 0 * 0.30 + 0.84 * 0.10
       min 1 (max 0.15 (learned * 0.65 + learned * 0.35))) ∧
    (323/500 : ℚ) ≠
      (let learned : ℚ := 0.22 + 0.825 * 0.38 + 0.25 * 0.30 + 0.92 * 0.10
       min 1 (max 0.15 (learned * 0.65 + learned * 0.35))) :=
  ⟨by decide, by decide, by decide⟩

/-! ## C5 — canonical-key uniqueness and precedence -/

/-- One step of the key-grouping pass preserves the grouping invariant. -/
theorem groupStep_GroupInv (m processed : List CanonicalItem) (item : CanonicalItem)
    (h : GroupInv m processed) : GroupInv (groupStep m item) (processed ++ [item]) := by
  obtain ⟨hnd, hmem, hrank, hcover⟩ := h
  unfold groupStep
  cases hfind : m.find? (fun e => e.canonicalKey = item.canonicalKey) with
  | none =>
    show GroupInv (m ++ [item]) (processed ++ [item])
    have hnone : ∀ e ∈ m, e.canonicalKey ≠ item.canonicalKey := by
      intro e he
      have hx := List.find?_eq_none.1 hfind e he
      simpa using hx
    refine ⟨?_, ?_, ?_, ?_⟩
    · rw [List.map_append, List.nodup_append]
      refine ⟨hnd, List.nodup_singleton _, ?_⟩
      intro k hk hk2
      simp only [List.map_singleton, List.mem_singleton] at hk2
      obtain ⟨e, he, hke⟩ := List.mem_map.1 hk
      exact hnone e he (by rw [hke, hk2])
    · intro e he
      rcases List.mem_append.1 he with he | he
      · exact List.mem_append.2 (.inl (hmem e he))
      · exact List.mem_append.2 (.inr he)
    · intro e he it hit hkey
      rcases List.mem_append.1 he with he | he
      · rcases List.mem_append.1 hit with hit | hit
        · exact hrank e he it hit hkey
        · have hi : it = item := List.mem_singleton.1 hit
          rw [hi] at hkey
          exact absurd hkey.symm (hnone e he)
      · have he2 : e = item := List.mem_singleton.1 he
        rcases List.mem_append.1 hit with hit | hit
        · obtain ⟨e2, he3, hk2⟩ := hcover it hit
          rw [he2] at hkey
          exact absurd (hk2.trans hkey) (hnone e2 he3)
        · have hi : it = item := List.mem_singleton.1 hit
          rw [hi, he2]
    · intro it hit
      rcases List.mem_append.1 hit with hit | hit
      · obtain ⟨e, he, hk⟩ := hcover it hit
        exact ⟨e, List.mem_append.2 (.inl he), hk⟩
      · have hi : it = item := List.mem_singleton.1 hit
        exact ⟨item, List.mem_append.2 (.inr (List.mem_singleton.2 rfl)), by rw [hi]⟩
  | some old =>
    show GroupInv
      (if rank old.kind < rank item.kind then
        m.map fun e => if e.canonicalKey = item.canonicalKey then item else e
      else m) (processed ++ [item])
    have holdMem : old ∈ m := List.mem_of_find?_eq_some hfind
    have holdKey : old.canonicalKey = item.canonicalKey := by
      have hp := List.find?_some hfind
      simpa using hp
    have hinj := List.inj_on_of_nodup_map hnd
    by_cases hr : rank old.kind < rank item.kind
    · rw [if_pos hr]
      have hkeys : ((m.map fun e => if e.canonicalKey = item.canonicalKey then item else e).map
          fun x => x.canonicalKey) = m.map fun x => x.canonicalKey := by
        rw [List.map_map]
        refine List.map_congr_left ?_
        intro e _
        by_cases hk : e.canonicalKey = item.canonicalKey
        · simp [hk]
        · simp [hk]
      refine ⟨?_, ?_, ?_, ?_⟩
      · rw [hkeys]; exact hnd
      · intro e2 he2
        obtain ⟨e, he, hee⟩ := List.mem_map.1 he2
        by_cases hk : e.canonicalKey = item.canonicalKey
        · rw [if_pos hk] at hee
          subst hee
          exact List.mem_append.2 (.inr (List.mem_singleton.2 rfl))
        · rw [if_neg hk] at hee
          subst hee
          exact List.mem_append.2 (.inl (hmem e he))
      · intro e2 he2 it hit hkey
        obtain ⟨e, he, hee⟩ := List.mem_map.1 he2
        by_cases hk : e.canonicalKey = item.canonicalKey
        · rw [if_pos hk] at hee
          subst hee
          have heo : e = old := hinj he holdMem (hk.trans holdKey.symm)
          rcases List.mem_append.1 hit with hit | hit
          · have h1 : rank it.kind ≤ rank e.kind :=
              hrank e he it hit (hkey.trans hk.symm)
            refine le_trans h1 ?_
            rw [heo]
            exact le_of_lt hr
          · have hi : it = item := List.mem_singleton.1 hit
            rw [hi]
        · rw [if_neg hk] at hee
          subst hee
          rcases List.mem_append.1 hit with hit | hit
          · exact hrank e he it hit hkey
          · have hi : it = item := List.mem_singleton.1 hit
            rw [hi] at hkey
            exact absurd hkey.symm hk
      · intro it hit
        rcases List.mem_append.1 hit with hit | hit
        · obtain ⟨e, he, hk⟩ := hcover it hit
          refine ⟨if e.canonicalKey = item.canonicalKey then item else e,
            List.mem_map.2 ⟨e, he, rfl⟩, ?_⟩
          by_cases hke : e.canonicalKey = item.canonicalKey
          · rw [if_pos hke, ← hke, hk]
          · rw [if_neg hke]
            exact hk
        · have hi : it = item := List.mem_singleton.1 hit
          refine ⟨if old.canonicalKey = item.canonicalKey then item else old,
            List.mem_map.2 ⟨old, holdMem, rfl⟩, ?_⟩
          rw [if_pos holdKey, hi]
    · rw [if_neg hr]
      refine ⟨hnd, ?_, ?_, ?_⟩
      · intro e he
        exact List.mem_append.2 (.inl (hmem e he))
      · intro e he it hit hkey
        rcases List.mem_append.1 hit with hit | hit
        · exact hrank e he it hit hkey
        · have hi : it = item := List.mem_singleton.1 hit
          rw [hi] at hkey
          have heo : e = old := hinj he holdMem (hkey.symm.trans holdKey.symm)
          rw [hi, heo]
          exact Nat.le_of_not_lt hr
      · intro it hit
        rcases List.mem_append.1 hit with hit | hit
        · obtain ⟨e, he, hk⟩ := hcover it hit
          exact ⟨e, he, hk⟩
        · have hi : it = item := List.mem_singleton.1 hit
          exact ⟨old, holdMem, by rw [hi, holdKey]⟩

/-- C5: the canonicalizer's output has pairwise-distinct canonical keys, every
output unit is one of the pre-grouping candidate items, and its kind's
precedence rank dominates every candidate item sharing its key
(pattern=4 > sentence=3 > chunk=2 > word=1). -/
theorem canonicalize_key_unique (raws : List String) (corr src : String) :
    ((canonicalizeCandidates raws corr src).map (·.canonicalKey)).Nodup ∧
    ∀ u ∈ canonicalizeCandidates raws corr src,
      u ∈ preGroupItems raws corr src ∧
      ∀ it ∈ preGroupItems raws corr src,
        it.canonicalKey = u.canonicalKey → rank it.kind ≤ rank u.kind := by
  have hfold : ∀ (items m processed : List CanonicalItem), GroupInv m processed →
      GroupInv (items.foldl groupStep m) (processed ++ items) := by
    intro items
    induction items with
    | nil => intro m processed h; simpa using h
    | cons it its ih =>
      intro m processed h
      have h2 := ih (groupStep m it) (processed ++ [it]) (groupStep_GroupInv m processed it h)
      simpa [List.append_assoc] using h2
  have h0 : GroupInv [] [] := by
    refine ⟨List.nodup_nil, ?_, ?_, ?_⟩ <;> simp
  have hinv : GroupInv (groupByKey (preGroupItems raws corr src))
      (preGroupItems raws corr src) := by
    have h1 := hfold (preGroupItems raws corr src) [] [] h0
    simpa [groupByKey] using h1
  obtain ⟨hnd, hmem, hrank, _⟩ := hinv
  exact ⟨hnd, fun u hu => ⟨hmem u hu, fun it hit hkey => hrank u hu it hit hkey⟩⟩

/-- C5 witness: two raw candidates that both normalize into the
`je suis + [noun]` pattern share one key; the single survivor is that
pattern unit and its rank dominates. -/
theorem canonicalize_key_unique_witness :
    ((canonicalizeCandidates ["je suis content", "je suis fatigué"] "" "").map
      (·.canonicalKey)).Nodup ∧
    jeSuisPatternItem ∈ preGroupItems ["je suis content", "je suis fatigué"] "" "" ∧
    rank jeSuisPatternItem.kind ≤ rank jeSuisPatternItem.kind :=
  ⟨(canonicalize_key_unique ["je suis content", "je suis fatigué"] "" "").1,
   ((canonicalize_key_unique ["je suis content", "je suis fatigué"] "" "").2
     jeSuisPatternItem (by decide)).1,
   ((canonicalize_key_unique ["je suis content", "je suis fatigué"] "" "").2
     jeSuisPatternItem (by decide)).2 jeSuisPatternItem (by decide) rfl⟩

/-! ## C6 and C9 — link well-formedness and the degree cap -/

/-- `_add_link` keeps every stored link well-formed. -/
theorem addLink_LinkOk (nodeIds : List String) (st : LinkSt) (r : LinkReq)
    (h : ∀ l ∈ st.links, LinkOk nodeIds l) :
    ∀ l ∈ (addLink nodeIds st r).links, LinkOk nodeIds l := by
  unfold addLink
  dsimp only
  split_ifs with h1 h2 h3
  · exact h
  · exact h
  · exact h
  · intro l hl
    rcases List.mem_append.1 hl with hl | hl
    · exact h l hl
    · have hl2 := List.mem_singleton.1 hl
      subst hl2
      push_neg at h1 h2
      exact ⟨h1.2.2, h2.1, h2.2⟩

/-- `_add_link` keeps unordered endpoint pairs distinct and recorded. -/
theorem addLink_SeenInv (nodeIds : List String) (st : LinkSt) (r : LinkReq)
    (h : SeenInv st) : SeenInv (addLink nodeIds st r) := by
  obtain ⟨hnd, hseen⟩ := h
  unfold addLink
  dsimp only
  split_ifs with h1 h2 h3
  · exact ⟨hnd, hseen⟩
  · exact ⟨hnd, hseen⟩
  · exact ⟨hnd, hseen⟩
  · constructor
    · rw [List.map_append, List.nodup_append]
      refine ⟨hnd, List.nodup_singleton _, ?_⟩
      intro k hk hk2
      simp only [List.map_singleton, List.mem_singleton] at hk2
      obtain ⟨l, hl, hkl⟩ := List.mem_map.1 hk
      have hmem := hseen l hl
      rw [hkl, hk2] at hmem
      exact h3 hmem
    · intro l hl
      rcases List.mem_append.1 hl with hl | hl
      · exact List.mem_append.2 (.inl (hseen l hl))
      · have hl2 := List.mem_singleton.1 hl
        subst hl2
        exact List.mem_append.2 (.inr (List.mem_singleton.2 rfl))

/-- Folding `_add_link` over any request list keeps links well-formed. -/
theorem foldAddLink_LinkOk (nodeIds : List String) (reqs : List LinkReq) (st : LinkSt)
    (h : ∀ l ∈ st.links, LinkOk nodeIds l) :
    ∀ l ∈ (reqs.foldl (addLink nodeIds) st).links, LinkOk nodeIds l := by
  induction reqs generalizing st with
  | nil => exact h
  | cons r rs ih => exact ih _ (addLink_LinkOk nodeIds st r h)

/-- Folding `_add_link` over any request list keeps the pair-dedup invariant. -/
theorem foldAddLink_SeenInv (nodeIds : List String) (reqs : List LinkReq) (st : LinkSt)
    (h : SeenInv st) : SeenInv (reqs.foldl (addLink nodeIds) st) := by
  induction reqs generalizing st with
  | nil => exact h
  | cons r rs ih => exact ih _ (addLink_SeenInv nodeIds st r h)

/-- Every merged link (all three strategies) is well-formed. -/
theorem buildLinks_LinkOk (history : List TurnRec) :
    ∀ l ∈ buildLinks history, LinkOk (nodeIdSet history) l := by
  unfold buildLinks
  refine foldAddLink_LinkOk _ _ _ ?_
  intro l hl
  simp at hl

/-- The merged pre-cap link list is deduplicated by unordered endpoint pair. -/
theorem buildLinks_ukey_nodup (history : List TurnRec) :
    ((buildLinks history).map ukey).Nodup := by
  unfold buildLinks
  have h := foldAddLink_SeenInv (nodeIdSet history) (linkRequests history) ⟨[], []⟩
    ⟨List.nodup_nil, by simp⟩
  exact h.1

/-- Stable descending insertion permutes `x` into place. -/
theorem insertDesc_perm (x : GLink) (ls : List GLink) :
    List.Perm (insertDesc x ls) (x :: ls) := by
  induction ls with
  | nil => exact List.Perm.refl _
  | cons y ys ih =>
    unfold insertDesc
    by_cases hc : keyLtP (linkSortKey y) (linkSortKey x)
    · rw [if_pos hc]
    · rw [if_neg hc]
      exact (ih.cons y).trans (List.Perm.swap x y ys)

/-- The priority sort is a permutation of its input. -/
theorem sortLinksDesc_perm (ls : List GLink) : List.Perm (sortLinksDesc ls) ls := by
  have key : ∀ (ls acc : List GLink),
      List.Perm (ls.foldl (fun a l => insertDesc l a) acc) (acc ++ ls) := by
    intro ls
    induction ls with
    | nil => intro acc; simp
    | cons l ls ih =>
      intro acc
      refine (ih _).trans ?_
      refine ((insertDesc_perm l acc).append_right ls).trans ?_
      exact List.perm_middle.symm
  simpa [sortLinksDesc] using key ls []

/-- The greedy cap appends a sublist of its input to the kept list. -/
theorem capFold_kept (ls : List GLink) : ∀ st : CapSt, ∃ extra,
    (ls.foldl capStep st).kept = st.kept ++ extra ∧ extra.Sublist ls := by
  induction ls with
  | nil => exact fun st => ⟨[], by simp, List.nil_sublist _⟩
  | cons l ls ih =>
    intro st
    rw [List.foldl_cons]
    by_cases hg : 4 ≤ st.degree l.source ∨ 4 ≤ st.degree l.target
    · have hstep : capStep st l = st := by unfold capStep; rw [if_pos hg]
      rw [hstep]
      obtain ⟨extra, he, hs⟩ := ih st
      exact ⟨extra, he, hs.trans (List.sublist_cons_self l ls)⟩
    · have hstep : capStep st l =
          ⟨fun x => ((if x = l.source then 1 else 0) + (if x = l.target then 1 else 0)) +
            st.degree x, st.kept ++ [l]⟩ := by
        unfold capStep; rw [if_neg hg]
      rw [hstep]
      obtain ⟨extra, he, hs⟩ := ih ⟨fun x =>
        ((if x = l.source then 1 else 0) + (if x = l.target then 1 else 0)) + st.degree x,
        st.kept ++ [l]⟩
      refine ⟨l :: extra, ?_, hs.cons₂ l⟩
      rw [he, List.append_assoc, List.singleton_append]

/-- Degree counting distributes over appending a single link. -/
theorem degreeCount_append_singleton (kept : List GLink) (l : GLink) (y : String) :
    degreeCount (kept ++ [l]) y =
      degreeCount kept y + ((if y = l.source then 1 else 0) + (if y = l.target then 1 else 0)) := by
  unfold degreeCount
  rw [List.filter_append, List.filter_append, List.length_append, List.length_append]
  have hs : (List.filter (fun e => e.source = y) [l]).length = if y = l.source then 1 else 0 := by
    by_cases h : y = l.source
    · rw [if_pos h]
      simp [h.symm]
    · rw [if_neg h]
      simp [Ne.symm h]
  have ht : (List.filter (fun e => e.target = y) [l]).length = if y = l.target then 1 else 0 := by
    by_cases h : y = l.target
    · rw [if_pos h]
      simp [h.symm]
    · rw [if_neg h]
      simp [Ne.symm h]
  rw [hs, ht]
  omega

/-- The greedy pass keeps every node's degree at 4 or below (given no
self-loops, which `_add_link` guarantees upstream). -/
theorem capFold_degree (ls : List GLink) : ∀ st : CapSt,
    (∀ l ∈ ls, l.source ≠ l.target) →
    (∀ x, st.degree x = degreeCount st.kept x) →
    (∀ x, st.degree x ≤ 4) →
    ∀ x, degreeCount ((ls.foldl capStep st).kept) x ≤ 4 := by
  induction ls with
  | nil =>
    intro st hls hdeg hbd x
    rw [List.foldl_nil, ← hdeg x]
    exact hbd x
  | cons l ls ih =>
    intro st hls hdeg hbd x
    rw [List.foldl_cons]
    by_cases hg : 4 ≤ st.degree l.source ∨ 4 ≤ st.degree l.target
    · have hstep : capStep st l = st := by unfold capStep; rw [if_pos hg]
      rw [hstep]
      exact ih st (fun e he => hls e (List.mem_cons_of_mem l he)) hdeg hbd x
    · have hlst : l.source ≠ l.target := hls l (List.mem_cons_self l ls)
      have hstep : capStep st l =
          ⟨fun x => ((if x = l.source then 1 else 0) + (if x = l.target then 1 else 0)) +
            st.degree x, st.kept ++ [l]⟩ := by
        unfold capStep; rw [if_neg hg]
      rw [hstep]
      push_neg at hg
      refine ih _ (fun e he => hls e (List.mem_cons_of_mem l he)) ?_ ?_ x
      · intro y
        show ((if y = l.source then 1 else 0) + (if y = l.target then 1 else 0)) + st.degree y =
          degreeCount (st.kept ++ [l]) y
        rw [degreeCount_append_singleton, ← hdeg y]
        omega
      · intro y
        show ((if y = l.source then 1 else 0) + (if y = l.target then 1 else 0)) + st.degree y ≤ 4
        by_cases h1 : y = l.source
        · rw [if_pos h1, if_neg (fun h2 => hlst (h1.symm.trans h2))]
          have h3 : st.degree y < 4 := by rw [h1]; exact hg.1
          omega
        · by_cases h2 : y = l.target
          · rw [if_neg h1, if_pos h2]
            have h3 : st.degree y < 4 := by rw [h2]; exact hg.2
            omega
          · rw [if_neg h1, if_neg h2]
            have h3 := hbd y
            omega

/-- C6: after the degree-capping step — a sort by relationship priority with
later-turn tie-break followed by a greedy keep — no node id is an endpoint of
more than 4 links in the list `graph_links` returns, for any session
history. -/
theorem graphLinks_degree_cap (history : List TurnRec) (x : String) :
    degreeCount (graphLinks history) x ≤ 4 := by
  unfold graphLinks capLinks
  refine capFold_degree _ _ ?_ ?_ ?_ x
  · intro l hl
    have hl2 : l ∈ buildLinks history :=
      ((sortLinksDesc_perm (buildLinks history)).mem_iff).1 hl
    exact (buildLinks_LinkOk history l hl2).1
  · intro y
    simp [degreeCount]
  · intro y
    exact Nat.zero_le 4

/-- C9: every returned link has distinct endpoints, both endpoints are node
ids derived from accepted validated units (enforced for all three
strategies), and unordered endpoint pairs are pairwise distinct. -/
theorem graphLinks_wellformed (history : List TurnRec) :
    (∀ l ∈ graphLinks history,
      l.source ≠ l.target ∧ l.source ∈ nodeIdSet history ∧ l.target ∈ nodeIdSet history) ∧
    ((graphLinks history).map ukey).Nodup := by
  have hsub : (graphLinks history).Sublist (sortLinksDesc (buildLinks history)) := by
    unfold graphLinks capLinks
    obtain ⟨extra, he, hs⟩ := capFold_kept (sortLinksDesc (buildLinks history)) ⟨fun _ => 0, []⟩
    rw [he]
    simpa using hs
  constructor
  · intro l hl
    have h1 : l ∈ sortLinksDesc (buildLinks history) := hsub.subset hl
    have h2 : l ∈ buildLinks history := (sortLinksDesc_perm _).mem_iff.1 h1
    exact buildLinks_LinkOk history l h2
  · have h1 : ((sortLinksDesc (buildLinks history)).map ukey).Nodup :=
      ((sortLinksDesc_perm (buildLinks history)).map ukey).nodup_iff.2
        (buildLinks_ukey_nodup history)
    exact (hsub.map ukey).nodup h1

unseal Rat.ofScientific Rat.mul Rat.inv Rat.add Rat.sub in
/-- C9 witness: on a one-turn history with two accepted units sharing a
canonical key, the single returned link has distinct endpoints inside the
node-id set, and the pair list is duplicate-free. -/
theorem graphLinks_wellformed_witness :
    (sharedKeyLink.source ≠ sharedKeyLink.target ∧
      sharedKeyLink.source ∈ nodeIdSet [sharedKeyTurn] ∧
      sharedKeyLink.target ∈ nodeIdSet [sharedKeyTurn]) ∧
    ((graphLinks [sharedKeyTurn]).map ukey).Nodup :=
  ⟨(graphLinks_wellformed [sharedKeyTurn]).1 sharedKeyLink (by decide),
   (graphLinks_wellformed [sharedKeyTurn]).2⟩

end Claims
